import Mathlib

/-!
# easy-jsonrpc: interface analysis and binding generation, verified

Shallow embedding of the `#[rpc]` attribute macro of easy-jsonrpc
(`src/proc_macros/src/lib.rs`, helper `src/src/util.rs`) and of the runtime
semantics of the code it generates.

The macro input (a restriction of `syn`'s AST to the fields the macro
inspects) is modelled first, then the validation and generation pipeline
(`trait_methods`, `get_args`, `as_jsonrpc_arg`, `partition`, `impl_server`,
`impl_client`, `rpc`), and finally the runtime behaviour of the generated
server dispatcher and client request builders.  Source locations (`Span`)
are modelled as natural-number tags carried by the AST nodes at exactly the
places where the source calls `.span()`.

Types of the main crate (`Params`, `get_rpc_args`, `BoundMethod`,
`try_serialize`, the jsonrpc `Error`) are not under `src/`; they are
modelled from the specification and marked as such in their doc comments.
-/

namespace EasyJsonrpc

/-- `serde_json::Value`: the generic structured value representation through
which all arguments and return values pass. -/
inductive Json where
  | null : Json
  | bool (b : Bool) : Json
  | num (n : Int) : Json
  | str (s : String) : Json
  | arr (elems : List Json) : Json
  | obj (fields : List (String × Json)) : Json

/-- Restriction of `syn::Type` to the shapes the macro distinguishes:
`Type::Path` (a named type, kept as its final identifier), `Type::Reference`,
tuple types (for the default `()` return type), and everything else. -/
inductive Ty where
  | path (ident : String) : Ty
  | reference (elem : Ty) : Ty
  | tuple (elems : List Ty) : Ty
  | other : Ty

/-- `syn::PatIdent`: a binding pattern.  `by_ref`, `mutability` and `subpat`
keep only the span of the corresponding token when it is present, which is
all the macro uses of them. -/
structure PatIdent where
  ident : String
  identSpan : Nat
  by_ref : Option Nat
  mutability : Option Nat
  subpat : Option Nat

/-- `syn::Pat` restricted to what `as_jsonrpc_arg` distinguishes: an
identifier pattern, or any other pattern (with its span). -/
inductive Pat where
  | Ident (pat : PatIdent) : Pat
  | Other (span : Nat) : Pat

/-- Span of a pattern, as `syn`'s `.span()`. -/
def Pat.span : Pat → Nat
  | .Ident p => p.identSpan
  | .Other s => s

/-- `syn::FnArg` (syn 0.15): the receiver forms, a captured `name: type`
argument, and the remaining variants (`Inferred`, `Ignored`) collapsed into
`Other`.  `SelfRef` keeps the span of the `mut` token when present. -/
inductive FnArg where
  | SelfRef (mutability : Option Nat) (span : Nat) : FnArg
  | SelfValue (span : Nat) : FnArg
  | Captured (pat : Pat) (ty : Ty) (span : Nat) : FnArg
  | Other (span : Nat) : FnArg

/-- Span of an argument, as `syn`'s `.span()`. -/
def FnArg.span : FnArg → Nat
  | .SelfRef _ s => s
  | .SelfValue s => s
  | .Captured _ _ s => s
  | .Other s => s

/-- `syn::ReturnType`: either the default (no `->`) or a declared type. -/
inductive ReturnType where
  | default (span : Nat) : ReturnType
  | ty (t : Ty) (span : Nat) : ReturnType

/-- `syn::FnDecl`: ordered inputs plus the return type.  `inputsSpan` models
`decl.inputs.span()`, used when the argument list is empty. -/
structure FnDecl where
  inputs : List FnArg
  inputsSpan : Nat
  output : ReturnType

/-- `syn::MethodSig`: method name (with its span) and declaration. -/
structure MethodSig where
  ident : String
  identSpan : Nat
  decl : FnDecl

/-- `syn::TraitItem` restricted to what `trait_methods` distinguishes. -/
inductive TraitItem where
  | Method (sig : MethodSig) : TraitItem
  | Other (span : Nat) : TraitItem

/-- Span of a trait item, as `syn`'s `.span()`. -/
def TraitItem.span : TraitItem → Nat
  | .Method m => m.identSpan
  | .Other s => s

/-- `syn::ItemTrait`: trait name and member list. -/
structure ItemTrait where
  ident : String
  items : List TraitItem

/-- `Reason`: why the macro rejects a piece of input
(`src/proc_macros/src/lib.rs`, `enum Reason`). -/
inductive Reason where
  | FirstArgumentNotSelfRef : Reason
  | PatternMatchedArg : Reason
  | ConcreteTypesRequired : Reason
  | TraitNotStrictlyMethods : Reason
  | ReservedMethodPrefix : Reason
  | ReferenceArg : Reason
  | MutableArg : Reason
deriving DecidableEq, Repr

/-- `struct Rejection`: a located rejection. -/
structure Rejection where
  span : Nat
  reason : Reason
deriving DecidableEq, Repr

/-- `Rejection::create`. -/
def Rejection.create (span : Nat) (reason : Reason) : Rejection :=
  { span := span, reason := reason }

/-- `struct Rejections`: a non-empty batch of rejections; a distinguished
first element plus the rest. -/
structure Rejections where
  first : Rejection
  rest : List Rejection
deriving DecidableEq, Repr

/-- `impl From<Rejection> for Rejections`. -/
def Rejection.intoRejections (first : Rejection) : Rejections :=
  { first := first, rest := [] }

/-- Loop body of `partition`: push each `Ok` value onto `oks` and flatten
each `Rejections` batch onto `errs`, in encounter order. -/
def partition_go {K : Type} (oks : List K) (errs : List Rejection) :
    List (Except Rejections K) → List K × List Rejection
  | [] => (oks, errs)
  | i :: rest =>
    match i with
    | .ok ok => partition_go (oks ++ [ok]) errs rest
    | .error e => partition_go oks (errs ++ e.first :: e.rest) rest

/-- `fn partition`: if all items are `Ok`, return the values; otherwise
return every collected rejection as one `Rejections` batch. -/
def partition {K : Type} (iter : List (Except Rejections K)) :
    Except Rejections (List K) :=
  match partition_go [] [] iter with
  | (oks, []) => .ok oks
  | (_, first :: rest) => .error { first := first, rest := rest }

/-- `fn as_jsonrpc_arg`: extract name and type from one non-receiver
argument, checking binding shape.  The `PatIdent` cases are tried in the
source's order: `by_ref`, then `mutability`, then `subpat`. -/
def as_jsonrpc_arg (arg : FnArg) : Except Rejections (String × Ty) :=
  match arg with
  | .Captured pat ty _ =>
    match pat with
    | .Ident pat_ident =>
      match pat_ident.by_ref with
      | some r => .error (Rejection.create r .ReferenceArg).intoRejections
      | none =>
        match pat_ident.mutability with
        | some m => .error (Rejection.create m .MutableArg).intoRejections
        | none =>
          match pat_ident.subpat with
          | some l => .error (Rejection.create l .PatternMatchedArg).intoRejections
          | none => .ok (pat_ident.ident, ty)
    | .Other s => .error (Rejection.create s .PatternMatchedArg).intoRejections
  | a => .error (Rejection.create a.span .ConcreteTypesRequired).intoRejections

/-- `fn get_args`: require the first input to be an immutable `&self`
receiver, then run `as_jsonrpc_arg` over the remaining inputs, aggregated
by `partition`. -/
def get_args (method : FnDecl) : Except Rejections (List (String × Ty)) :=
  match method.inputs with
  | FnArg.SelfRef none _ :: rest => partition (rest.map as_jsonrpc_arg)
  | a :: _ =>
    .error (Rejection.create a.span .FirstArgumentNotSelfRef).intoRejections
  | [] =>
    .error (Rejection.create method.inputsSpan .FirstArgumentNotSelfRef).intoRejections

/-- The member-kind check of `trait_methods`: every trait item must be a
method declaration. -/
def member_check (item : TraitItem) : Except Rejections MethodSig :=
  match item with
  | TraitItem.Method method => Except.ok method
  | other =>
    Except.error (Rejection.create other.span .TraitNotStrictlyMethods).intoRejections

/-- Rust's `str::starts_with`, computed on the underlying character list (the
form that evaluates inside Lean's kernel). -/
def starts_with (s pre : String) : Bool :=
  pre.data.isPrefixOf s.data

/-- The reserved-name check of `trait_methods`: a method name must not start
with the "rpc." prefix reserved by the JSON-RPC 2.0 specification. -/
def reserved_check (method : MethodSig) : Except Rejections Unit :=
  if starts_with method.ident "rpc." then
    Except.error
      (Rejection.create method.identSpan .ReservedMethodPrefix).intoRejections
  else Except.ok ()

/-- `fn trait_methods`: collect every member that is a method (rejecting the
rest), then — only if that succeeded (the `?` after the first `partition`) —
reject methods whose name starts with the reserved "rpc." prefix, again
aggregated by `partition`. -/
def trait_methods (tr : ItemTrait) : Except Rejections (List MethodSig) :=
  match partition (tr.items.map member_check) with
  | .error e => .error e
  | .ok methods =>
    match partition (methods.map reserved_check) with
    | .error e => .error e
    | .ok _ => .ok methods

/-- `fn is_type_str`. -/
def is_type_str (ty : Ty) : Bool :=
  match ty with
  | .path p => p == "str"
  | _ => false

/-- `fn return_type`: the declared return type, or the unit tuple when the
declaration has no `->`. -/
def return_type (method : MethodSig) : Ty :=
  match method.decl.output with
  | .default _ => Ty.tuple []
  | .ty t _ => t

/-- Semantic content of the code `add_handler` generates for one method:
the argument names and types, in declaration order (they drive the
generated `get_rpc_args` call and the ordered deserialization). -/
def add_handler (method : MethodSig) : Except Rejections (List (String × Ty)) :=
  get_args method.decl

/-- One match arm of the generated `Handler::handle`: the method-name
literal and the argument list `add_handler` derived. -/
structure HandlerArm where
  method_literal : String
  args : List (String × Ty)

/-- Semantic content of the server-side artifact `impl_server` generates:
one `HandlerArm` per accepted method, in declaration order. -/
structure ServerImpl where
  trait_name : String
  handlers : List HandlerArm

/-- `fn impl_server`: validate the trait members, then build one handler arm
per method, aggregating per-method failures with `partition`. -/
def impl_server (tr : ItemTrait) : Except Rejections ServerImpl :=
  match trait_methods tr with
  | .error e => .error e
  | .ok methods =>
    match partition (methods.map fun method =>
        (add_handler method).map fun args =>
          ({ method_literal := method.ident, args := args } : HandlerArm)) with
    | .error e => .error e
    | .ok handlers => .ok { trait_name := tr.ident, handlers := handlers }

/-- Semantic content of one generated client request builder: method-name
literal, arguments (name and declared type, receiver excluded, in
declaration order) and the return type carried as a static tag. -/
structure ClientMethod where
  name : String
  args : List (String × Ty)
  ret : Ty

/-- `fn impl_client_method`: derive the builder description for one method. -/
def impl_client_method (method : MethodSig) : Except Rejections ClientMethod :=
  match get_args method.decl with
  | .error e => .error e
  | .ok args => .ok { name := method.ident, args := args, ret := return_type method }

/-- `collect::<Result<Vec<_>, _>>()` over `Except`: stop at the first error
(unlike `partition`, which aggregates). -/
def collectExcept {A K : Type} (f : A → Except Rejections K) :
    List A → Except Rejections (List K)
  | [] => .ok []
  | a :: rest =>
    match f a with
    | .error e => .error e
    | .ok k =>
      match collectExcept f rest with
      | .error e => .error e
      | .ok ks => .ok (k :: ks)

/-- Semantic content of the client-side artifact `impl_client` generates.
The snake-case conversion of the trait name (external `heck` crate) is not
modelled; the enum name is kept as the trait identifier. -/
structure ClientImpl where
  mod_name : String
  methods : List ClientMethod

/-- `fn impl_client`: validate the trait members, then build one request
builder per method; the source collects with `Result`'s `collect`, which
stops at the first failing method. -/
def impl_client (tr : ItemTrait) : Except Rejections ClientImpl :=
  match trait_methods tr with
  | .error e => .error e
  | .ok methods =>
    match collectExcept impl_client_method methods with
    | .error e => .error e
    | .ok method_impls => .ok { mod_name := tr.ident, methods := method_impls }

/-- `Rejections::raise`: the emitted diagnostics, first then rest. -/
def Rejections.raise (r : Rejections) : List Rejection :=
  r.first :: r.rest

/-- `fn raise_if_err`: an `Ok` artifact passes through; an `Err` is replaced
by its raised diagnostics. -/
def raise_if_err {A : Type} (res : Except Rejections A) :
    Option A × List Rejection :=
  match res with
  | .ok a => (some a, [])
  | .error rej => (none, rej.raise)

/-- Output of the `rpc` attribute macro: the server artifact and the client
artifact (each `none` when its generation was rejected), plus every raised
diagnostic (server first, then client, as the macro emits them). -/
structure RpcOutput where
  server : Option ServerImpl
  client : Option ClientImpl
  errors : List Rejection

/-- `fn rpc`: run server generation and client generation independently on
the same trait, raising each side's rejections. -/
def rpc (tr : ItemTrait) : RpcOutput :=
  let s := raise_if_err (impl_server tr)
  let c := raise_if_err (impl_client tr)
  { server := s.1, client := c.1, errors := s.2 ++ c.2 }

/-! ## Runtime semantics of the generated code

The generated dispatcher and client builders call into the main crate
(`easy_jsonrpc::Params`, `get_rpc_args`, `BoundMethod`, `try_serialize`, the
jsonrpc `Error`), whose source is not under `src/`; those collaborators are
modelled from the specification below.  The shape of the generated code
itself (the match on the method name, the ordered argument parsing with its
defensive assertions, the per-argument serialization) is taken from the
`quote!` blocks of `impl_server`, `add_handler` and `impl_client_method`. -/

/-- Modelled from the spec: the error the parameter container returns when
the supplied parameters do not satisfy the expected names (missing or
extra), naming the offending parameters. -/
inductive ParamsError where
  | InvalidParams (names : List String) : ParamsError

/-- Runtime dispatch errors (spec §7).  `MethodNotFound`, `InvalidParams`,
`InvalidArgStructure` and `ResultSerializationFailure` are modelled from the
spec (the jsonrpc `Error` type lives in the main crate); `TooFewArgsBug`
and `LeftoverArgsBug` model the two defensive assertions in the generated
code — the `.expect("RPC method Got too few args. This is a bug.")` panic
and the `debug_assert_eq!(ordered_args.next(), None)` — which are generator
bugs, not caller errors. -/
inductive Error where
  | MethodNotFound : Error
  | InvalidParams (names : List String) : Error
  | InvalidArgStructure (name : String) (index : Nat) : Error
  | ResultSerializationFailure : Error
  | TooFewArgsBug : Error
  | LeftoverArgsBug : Error

/-- `ParamsError` converts into a dispatch error (`map_err(|a| a.into())`). -/
def ParamsError.intoError : ParamsError → Error
  | .InvalidParams names => .InvalidParams names

/-- Modelled from the spec: the external parameter container abstracts the
positional-array and named-object jsonrpc parameter styles. -/
inductive Params where
  | positional (values : List Json) : Params
  | named (fields : List (String × Json)) : Params

/-- Modelled from the spec: `Params::get_rpc_args(expected_names)` — one
ordered-extraction call.  A positional array must have exactly one value per
expected name; a named object must bind every expected name and contain no
extra name.  Missing or extra names fail with `InvalidParams` naming them. -/
def get_rpc_args (params : Params) (expected : List String) :
    Except ParamsError (List Json) :=
  match params with
  | .positional values =>
    if values.length = expected.length then .ok values
    else .error (.InvalidParams expected)
  | .named fields =>
    let missing := expected.filter fun n => (fields.lookup n).isNone
    let extra := (fields.map Prod.fst).filter fun n => !(expected.contains n)
    if missing.isEmpty && extra.isEmpty then
      .ok (expected.filterMap fun n => fields.lookup n)
    else .error (.InvalidParams (missing ++ extra))

/-- `util::from_serde_json_value_ref` (src/src/util.rs): deserialize a
borrowed JSON value at type `T`.  The generic bound `T: Deserialize` becomes
an explicit deserializer argument. -/
def from_serde_json_value_ref {T : Type} (de : Json → Except Unit T)
    (value : Json) : Except Unit T :=
  de value

/-- Semantic view of one accepted method inside the generated
`Handler::handle`: the method-name literal of its match arm, its parameters
(name and deserializer, in declaration order), the underlying trait
implementation, and the return-value serializer.  Parameter and return
values range over ambient universes `V` and `R` standing for the method's
Rust types. -/
structure MethodImpl (V R : Type) where
  name : String
  params : List (String × (Json → Except Unit V))
  callImpl : List V → R
  ser : R → Except Unit Json

/-- The argument-parsing sequence `add_handler` generates: take the next raw
value for each parameter in declaration order (the `.expect` panic when the
container under-delivered is `TooFewArgsBug`), deserialize it with
`from_serde_json_value_ref`, and fail with `InvalidArgStructure` carrying
the parameter's name and index at the first deserialization failure. -/
def parse_args_loop {V : Type} :
    List (String × (Json → Except Unit V)) → Nat → List Json →
    Except Error (List V × List Json)
  | [], _, remaining => .ok ([], remaining)
  | (name, de) :: ps, index, remaining =>
    match remaining with
    | [] => .error .TooFewArgsBug
    | v :: rest =>
      match from_serde_json_value_ref de v with
      | .ok x =>
        match parse_args_loop ps (index + 1) rest with
        | .ok (vals, rem) => .ok (x :: vals, rem)
        | .error e => .error e
      | .error _ => .error (.InvalidArgStructure name index)

/-- The extraction-and-deserialization step of the generated dispatcher:
`params.get_rpc_args(&[names...])` followed by the ordered parse sequence. -/
def extract_and_parse {V : Type}
    (ps : List (String × (Json → Except Unit V))) (params : Params) :
    Except Error (List V × List Json) :=
  match get_rpc_args params (ps.map Prod.fst) with
  | .error e => .error e.intoError
  | .ok args => parse_args_loop ps 0 args

/-- Modelled from the spec: `easy_jsonrpc::try_serialize` — serialize the
return value, surfacing a result-serialization error distinct from argument
errors. -/
def try_serialize {R : Type} (ser : R → Except Unit Json) (result : R) :
    Except Error Json :=
  match ser result with
  | .ok v => .ok v
  | .error _ => .error .ResultSerializationFailure

/-- Body of one generated match arm: extract and parse the arguments, call
the target procedure, check the `debug_assert` that parsing consumed every
extracted value, and serialize the result. -/
def handle_method {V R : Type} (m : MethodImpl V R) (params : Params) :
    Except Error Json :=
  match extract_and_parse m.params params with
  | .error e => .error e
  | .ok (vals, remaining) =>
    let result := m.callImpl vals
    if remaining.isEmpty then try_serialize m.ser result
    else .error .LeftoverArgsBug

/-- The generated `Handler::handle`: match the method name against the
accepted methods' literals in declaration order; the fallback arm fails with
`MethodNotFound`. -/
def handle {V R : Type} (methods : List (MethodImpl V R)) (method : String)
    (params : Params) : Except Error Json :=
  match methods.find? (fun m => m.name == method) with
  | some m => handle_method m params
  | none => .error .MethodNotFound

/-- `struct ArgSerializeError`: the single client-side error kind, carrying
no further detail. -/
structure ArgSerializeError where
deriving DecidableEq, Repr

/-- Modelled from the spec: `BoundMethod<'static, R>` — the inert bound-call
descriptor: method-name literal and ordered serialized arguments, with the
return type `R` carried only as a static tag. -/
structure BoundMethod (R : Type) where
  method : String
  args : List Json

/-- `BoundMethod::new`. -/
def BoundMethod.new {R : Type} (method : String) (args : List Json) :
    BoundMethod R :=
  { method := method, args := args }

/-- The `vec![to_value(arg0)?, to_value(arg1)?, ...]` sequence of a
generated client builder: serialize each argument independently, in
declaration order, aborting the whole construction at the first failure. -/
def serialize_args {V : Type} :
    List ((V → Except Unit Json) × V) → Except ArgSerializeError (List Json)
  | [] => .ok []
  | a :: rest =>
    match a.1 a.2 with
    | .ok v =>
      match serialize_args rest with
      | .ok vs => .ok (v :: vs)
      | .error e => .error e
    | .error _ => .error {}

/-- Body of one generated client request builder (`impl_client_method`'s
`quote!` block): serialize the arguments and wrap them, with the method-name
literal, into a `BoundMethod` tagged by the return type. -/
def impl_client_method_call {V R : Type} (method_name_literal : String)
    (args : List ((V → Except Unit Json) × V)) :
    Except ArgSerializeError (BoundMethod R) :=
  match serialize_args args with
  | .ok serialized => .ok (BoundMethod.new method_name_literal serialized)
  | .error e => .error e

/-! ## Observers and basic lemmas -/

/-- Observer: the ordered violation list a validation result reports (empty
for an accepted result). -/
def violations {K : Type} : Except Rejections K → List Rejection
  | .ok _ => []
  | .error e => e.first :: e.rest

/-- Observer: the accepted values of a list of check results, in order. -/
def oksOf {K : Type} : List (Except Rejections K) → List K
  | [] => []
  | .ok k :: rest => k :: oksOf rest
  | .error _ :: rest => oksOf rest

/-- Observer: the flattened violations of a list of check results, in
encounter order. -/
def errsOf {K : Type} : List (Except Rejections K) → List Rejection
  | [] => []
  | r :: rest => violations r ++ errsOf rest

lemma partition_go_spec {K : Type} (l : List (Except Rejections K)) :
    ∀ oks errs, partition_go oks errs l = (oks ++ oksOf l, errs ++ errsOf l) := by
  induction l with
  | nil => intro oks errs; simp [partition_go, oksOf, errsOf]
  | cons r rest ih =>
    intro oks errs
    cases r with
    | ok k => simp [partition_go, oksOf, errsOf, violations, ih]
    | error e => simp [partition_go, oksOf, errsOf, violations, ih]

lemma partition_eq {K : Type} (l : List (Except Rejections K)) :
    partition l = match errsOf l with
      | [] => .ok (oksOf l)
      | first :: rest => .error { first := first, rest := rest } := by
  unfold partition
  rw [partition_go_spec]
  simp only [List.nil_append]
  cases errsOf l <;> simp

lemma violations_partition {K : Type} (l : List (Except Rejections K)) :
    violations (partition l) = errsOf l := by
  rw [partition_eq]
  cases errsOf l <;> simp [violations]

lemma errsOf_eq_nil_iff {K : Type} (l : List (Except Rejections K)) :
    errsOf l = [] ↔ ∀ r ∈ l, violations r = [] := by
  induction l with
  | nil => simp [errsOf]
  | cons r rest ih => simp [errsOf, ih]

lemma violations_eq_nil_iff {K : Type} (r : Except Rejections K) :
    violations r = [] ↔ ∃ k, r = .ok k := by
  cases r with
  | ok k => simp [violations]
  | error e => simp [violations]

lemma partition_ok_iff {K : Type} (l : List (Except Rejections K)) :
    (∃ ks, partition l = .ok ks) ↔ ∀ r ∈ l, ∃ k, r = .ok k := by
  rw [partition_eq]
  cases herr : errsOf l with
  | nil =>
    simp only []
    constructor
    · intro _ r hr
      exact (violations_eq_nil_iff r).mp ((errsOf_eq_nil_iff l).mp herr r hr)
    · intro _
      exact ⟨oksOf l, rfl⟩
  | cons f rest =>
    simp only []
    constructor
    · intro ⟨ks, hks⟩
      exact absurd hks (by simp)
    · intro hall
      have : errsOf l = [] := by
        rw [errsOf_eq_nil_iff]
        intro r hr
        exact (violations_eq_nil_iff r).mpr (hall r hr)
      rw [this] at herr
      exact absurd herr (by simp)

lemma collectExcept_ok_iff {A K : Type} (f : A → Except Rejections K)
    (l : List A) :
    (∃ ks, collectExcept f l = .ok ks) ↔ ∀ a ∈ l, ∃ k, f a = .ok k := by
  induction l with
  | nil => simp [collectExcept]
  | cons a rest ih =>
    constructor
    · intro ⟨ks, hks⟩
      unfold collectExcept at hks
      cases ha : f a with
      | error e => rw [ha] at hks; exact absurd hks (by simp)
      | ok k =>
        rw [ha] at hks
        cases hrest : collectExcept f rest with
        | error e => rw [hrest] at hks; exact absurd hks (by simp)
        | ok ks2 =>
          intro x hx
          rcases List.mem_cons.mp hx with h | h
          · exact ⟨k, h ▸ ha⟩
          · exact (ih.mp ⟨ks2, hrest⟩) x h
    · intro hall
      obtain ⟨k, hk⟩ := hall a (List.mem_cons_self a rest)
      obtain ⟨ks, hks⟩ := ih.mpr fun x hx => hall x (List.mem_cons_of_mem a hx)
      exact ⟨k :: ks, by unfold collectExcept; rw [hk, hks]⟩

lemma except_map_ok_iff {A B : Type} (e : Except Rejections A) (g : A → B) :
    (∃ b, e.map g = .ok b) ↔ ∃ a, e = .ok a := by
  cases e <;> simp [Except.map]

lemma impl_server_ok_iff (tr : ItemTrait) :
    (∃ s, impl_server tr = .ok s) ↔
      ∃ ms, trait_methods tr = .ok ms ∧
        ∀ m ∈ ms, ∃ args, get_args m.decl = .ok args := by
  constructor
  · intro ⟨s, hs⟩
    unfold impl_server at hs
    split at hs
    · cases hs
    next ms h =>
      split at hs
      · cases hs
      next handlers hp =>
        refine ⟨ms, h, fun m hm => ?_⟩
        have hall := (partition_ok_iff _).mp ⟨handlers, hp⟩
        have hmem := hall _ (List.mem_map.mpr ⟨m, hm, rfl⟩)
        exact (except_map_ok_iff _ _).mp hmem
  · intro ⟨ms, hms, hall⟩
    have hpart : ∃ ks, partition (ms.map fun method =>
        (add_handler method).map fun args =>
          ({ method_literal := method.ident, args := args } : HandlerArm)) = .ok ks := by
      rw [partition_ok_iff]
      intro r hr
      obtain ⟨m, hm, rfl⟩ := List.mem_map.mp hr
      exact (except_map_ok_iff _ _).mpr (hall m hm)
    obtain ⟨ks, hks⟩ := hpart
    unfold impl_server
    simp only [hms, hks]
    exact ⟨_, rfl⟩

lemma impl_client_method_ok_iff (m : MethodSig) :
    (∃ c, impl_client_method m = .ok c) ↔ ∃ args, get_args m.decl = .ok args := by
  unfold impl_client_method
  cases h : get_args m.decl <;> simp

lemma impl_client_ok_iff (tr : ItemTrait) :
    (∃ c, impl_client tr = .ok c) ↔
      ∃ ms, trait_methods tr = .ok ms ∧
        ∀ m ∈ ms, ∃ args, get_args m.decl = .ok args := by
  constructor
  · intro ⟨c, hc⟩
    unfold impl_client at hc
    split at hc
    · cases hc
    next ms h =>
      split at hc
      · cases hc
      next impls hcoll =>
        refine ⟨ms, h, fun m hm => ?_⟩
        have hall := (collectExcept_ok_iff impl_client_method ms).mp ⟨impls, hcoll⟩
        exact (impl_client_method_ok_iff m).mp (hall m hm)
  · intro ⟨ms, hms, hall⟩
    have hcoll : ∃ ks, collectExcept impl_client_method ms = .ok ks := by
      rw [collectExcept_ok_iff]
      intro m hm
      exact (impl_client_method_ok_iff m).mpr (hall m hm)
    obtain ⟨ks, hks⟩ := hcoll
    unfold impl_client
    simp only [hms, hks]
    exact ⟨_, rfl⟩

/-- Both generators accept exactly the same traits: each succeeds iff the
member validation succeeds and every method's argument extraction succeeds. -/
lemma generation_ok_iff (tr : ItemTrait) :
    (∃ s, impl_server tr = .ok s) ↔ (∃ c, impl_client tr = .ok c) := by
  rw [impl_server_ok_iff, impl_client_ok_iff]

/-- C2 — For every interface whose validation produces at least one
violation, generation is aborted entirely: the macro output contains no
server-side handler implementation and no client-side request-builder
module, not even for individually valid methods. -/
theorem nonempty_violations_abort_generation (tr : ItemTrait)
    (h : (rpc tr).errors ≠ []) :
    (rpc tr).server = none ∧ (rpc tr).client = none := by
  cases hs : impl_server tr with
  | error es =>
    cases hc : impl_client tr with
    | error ec => simp [rpc, raise_if_err, hs, hc]
    | ok c =>
      obtain ⟨s, hss⟩ := (generation_ok_iff tr).mpr ⟨c, hc⟩
      rw [hss] at hs
      cases hs
  | ok s =>
    obtain ⟨c, hc⟩ := (generation_ok_iff tr).mp ⟨s, hs⟩
    exact absurd (by simp [rpc, raise_if_err, hs, hc]) h

/-- A trait with one valid method and one reserved-prefix method: the
violation on the second member aborts generation for both artifacts. -/
def ping_sig : MethodSig :=
  { ident := "ping", identSpan := 20,
    decl := { inputs := [FnArg.SelfRef none 21], inputsSpan := 21,
              output := ReturnType.default 22 } }

def rpc_clear_sig : MethodSig :=
  { ident := "rpc.clear", identSpan := 23,
    decl := { inputs := [FnArg.SelfRef none 24], inputsSpan := 24,
              output := ReturnType.default 25 } }

def partially_invalid_trait : ItemTrait :=
  { ident := "Cache",
    items := [TraitItem.Method ping_sig, TraitItem.Method rpc_clear_sig] }

theorem nonempty_violations_abort_generation_witness :
    (rpc partially_invalid_trait).errors ≠ [] ∧
    (rpc partially_invalid_trait).server = none ∧
    (rpc partially_invalid_trait).client = none :=
  ⟨by decide, nonempty_violations_abort_generation partially_invalid_trait (by decide)⟩

/-! ## Claim C3: aggregation versus staging of the validation checks -/

lemma errsOf_eq_join {K : Type} (l : List (Except Rejections K)) :
    errsOf l = (l.map violations).flatten := by
  induction l with
  | nil => simp [errsOf]
  | cons r rest ih => simp [errsOf, ih]

lemma oksOf_map_ok {K : Type} (l : List K) :
    oksOf (l.map Except.ok) = l := by
  induction l with
  | nil => simp [oksOf]
  | cons k rest ih => simp [oksOf, ih]

lemma errsOf_map_ok {K : Type} (l : List K) :
    errsOf (l.map Except.ok) = [] := by
  induction l with
  | nil => simp [errsOf]
  | cons k rest ih => simp [errsOf, violations, ih]

lemma partition_map_ok {K : Type} (l : List K) :
    partition (l.map Except.ok) = .ok l := by
  rw [partition_eq, errsOf_map_ok, oksOf_map_ok]

/-- The method signature `rpc.x(&self)`, whose name carries the reserved
prefix (identifier span 11). -/
def reserved_sig : MethodSig :=
  { ident := "rpc.x", identSpan := 11,
    decl := { inputs := [FnArg.SelfRef none 12], inputsSpan := 12,
              output := ReturnType.default 13 } }

/-- An interface with two independent violations on distinct members: a
non-method member at span 10 and the reserved-prefix method `rpc.x`. -/
def two_violation_trait : ItemTrait :=
  { ident := "T", items := [TraitItem.Other 10, TraitItem.Method reserved_sig] }

/-- The same reserved-prefix method alone, showing that its violation is
detected when no member-kind violation precedes it. -/
def reserved_only_trait : ItemTrait :=
  { ident := "T", items := [TraitItem.Method reserved_sig] }

/-- C3 counterexample — `two_violation_trait` carries two independent
violations across distinct members (a non-method member, and a
reserved-prefix method that is reported in isolation, second conjunct), yet
validation reports exactly one violation, not two: the member-kind failure
makes the first `partition` of `trait_methods` return early, so the
reserved-prefix check never runs. -/
theorem member_violation_suppresses_reserved_check :
    violations (trait_methods two_violation_trait)
      = [Rejection.create 10 .TraitNotStrictlyMethods] ∧
    violations (trait_methods reserved_only_trait)
      = [Rejection.create 11 .ReservedMethodPrefix] :=
  ⟨rfl, rfl⟩

/-- C3 (amended) — Aggregation holds within each validation stage: over an
interface whose members are all methods, the reserved-prefix check runs on
every method and its failures are concatenated in member order; within a
method whose receiver is a shared immutable `&self`, the binding checks run
on every remaining parameter and their failures are concatenated in
parameter order.  (Across stages, an earlier failure suppresses the later
stage, as the counterexample shows.) -/
theorem validation_aggregates_within_stage :
    (∀ (name : String) (ms : List MethodSig),
       violations (trait_methods { ident := name, items := ms.map TraitItem.Method })
         = (ms.map fun m => violations (reserved_check m)).flatten) ∧
    (∀ (s isp : Nat) (out : ReturnType) (rest : List FnArg),
       violations (get_args { inputs := FnArg.SelfRef none s :: rest,
                              inputsSpan := isp, output := out })
         = (rest.map fun a => violations (as_jsonrpc_arg a)).flatten) := by
  constructor
  · intro name ms
    unfold trait_methods
    have hmem : (ms.map TraitItem.Method).map member_check = ms.map Except.ok := by
      rw [List.map_map]
      rfl
    simp only [hmem, partition_map_ok]
    cases hres : partition (ms.map reserved_check) with
    | error e =>
      have hv := violations_partition (ms.map reserved_check)
      rw [hres, errsOf_eq_join, List.map_map] at hv
      exact hv
    | ok u =>
      have hv := violations_partition (ms.map reserved_check)
      rw [hres, errsOf_eq_join, List.map_map] at hv
      exact hv
  · intro s isp out rest
    show violations (partition (rest.map as_jsonrpc_arg)) = _
    rw [violations_partition, errsOf_eq_join, List.map_map]
    rfl

/-! ## Claim C4: the Calculator example -/

/-- `fn add(&self, a: i32, b: i32) -> i32` (identifier span 1). -/
def add_sig : MethodSig :=
  { ident := "add", identSpan := 1,
    decl := { inputs := [FnArg.SelfRef none 2,
                         FnArg.Captured (Pat.Ident
                           { ident := "a", identSpan := 3,
                             by_ref := none, mutability := none, subpat := none })
                           (Ty.path "i32") 3,
                         FnArg.Captured (Pat.Ident
                           { ident := "b", identSpan := 4,
                             by_ref := none, mutability := none, subpat := none })
                           (Ty.path "i32") 4],
              inputsSpan := 2, output := ReturnType.ty (Ty.path "i32") 5 } }

/-- `fn rpc.reset(&self)` (identifier span 6). -/
def rpc_reset_sig : MethodSig :=
  { ident := "rpc.reset", identSpan := 6,
    decl := { inputs := [FnArg.SelfRef none 7], inputsSpan := 7,
              output := ReturnType.default 8 } }

/-- The spec's `Calculator` interface: `add` plus `rpc.reset`. -/
def calculator_trait : ItemTrait :=
  { ident := "Calculator",
    items := [TraitItem.Method add_sig, TraitItem.Method rpc_reset_sig] }

/-- `Calculator` with the offending `rpc.reset` member removed. -/
def calculator_valid_trait : ItemTrait :=
  { ident := "Calculator", items := [TraitItem.Method add_sig] }

/-- Deserializer for an integer-typed parameter. -/
def decode_int : Json → Except Unit Int
  | .num n => .ok n
  | _ => .error ()

/-- Runtime view of the generated handler arm for `add`: the parameter
names come from the generated artifact, the implementation adds its two
arguments, and the result serializes back to a JSON number. -/
def add_impl : MethodImpl Int Int :=
  { name := "add",
    params := [("a", decode_int), ("b", decode_int)],
    callImpl := fun vs => match vs with | [a, b] => a + b | _ => 0,
    ser := fun n => .ok (.num n) }

/-- C4 counterexample — on the `Calculator` interface, generation reports
exactly one violation (`ReservedMethodPrefix` at `rpc.reset`'s identifier),
but contrary to the claim `add` is NOT still accepted: the whole server
artifact is discarded, so no dispatcher exists to return `5`. -/
theorem calculator_add_not_accepted :
    impl_server calculator_trait
      = .error { first := Rejection.create 6 .ReservedMethodPrefix, rest := [] } ∧
    (rpc calculator_trait).server = none :=
  ⟨rfl, rfl⟩

/-- C4 (amended) — On `Calculator`, generation reports exactly one
violation, `ReservedMethodPrefix` located on `rpc.reset`, and aborts both
artifacts (`add` is not accepted).  For the interface without `rpc.reset`,
`add` is accepted with parameters `a`, `b`, dispatching `"add"` with
`{a: 2, b: 3}` returns `5`, and dispatching `"subtract"` with empty
parameters returns `MethodNotFound`. -/
theorem calculator_example :
    impl_server calculator_trait
      = .error { first := Rejection.create 6 .ReservedMethodPrefix, rest := [] } ∧
    (rpc calculator_trait).server = none ∧
    (rpc calculator_trait).client = none ∧
    impl_server calculator_valid_trait
      = .ok { trait_name := "Calculator",
              handlers := [{ method_literal := "add",
                             args := [("a", Ty.path "i32"), ("b", Ty.path "i32")] }] } ∧
    handle [add_impl] "add" (Params.named [("a", Json.num 2), ("b", Json.num 3)])
      = .ok (Json.num 5) ∧
    handle [add_impl] "subtract" (Params.named []) = .error .MethodNotFound :=
  ⟨rfl, rfl, rfl, rfl, rfl, rfl⟩

/-! ## Claim C5: unknown method names -/

/-- C5 — For every generated dispatcher, a method name matching no accepted
method falls through to the dispatcher's catch-all arm: dispatch returns
`MethodNotFound`, and no underlying implementation is invoked (the result
does not depend on any `callImpl`, which the statement quantifies over). -/
theorem unknown_method_yields_method_not_found {V R : Type}
    (methods : List (MethodImpl V R)) (method : String) (params : Params)
    (h : ∀ m ∈ methods, m.name ≠ method) :
    handle methods method params = .error .MethodNotFound := by
  unfold handle
  have hfind : methods.find? (fun m => m.name == method) = none := by
    rw [List.find?_eq_none]
    intro m hm
    simp [h m hm]
  rw [hfind]

theorem unknown_method_yields_method_not_found_witness :
    handle [add_impl] "mul" (Params.positional [Json.num 1]) = .error .MethodNotFound :=
  unknown_method_yields_method_not_found [add_impl] "mul"
    (Params.positional [Json.num 1]) (by decide)

/-! ## Claim C8: receiver shape -/

/-- C8 — Validation of a method's arguments requires the first parameter to
be a shared immutable receiver: an empty parameter list is rejected with
`FirstArgumentNotSelfRef` (at the input list's span); any first parameter
other than an immutable `&self` — a by-value receiver, a mutable receiver,
or an ordinary argument — is rejected with `FirstArgumentNotSelfRef` at its
own span; and with a shared immutable receiver the check passes, validation
proceeding to the remaining parameters. -/
theorem receiver_must_be_shared_ref (d : FnDecl) :
    (d.inputs = [] →
       get_args d
         = .error { first := Rejection.create d.inputsSpan .FirstArgumentNotSelfRef,
                    rest := [] }) ∧
    (∀ s rest, d.inputs = FnArg.SelfRef none s :: rest →
       get_args d = partition (rest.map as_jsonrpc_arg)) ∧
    (∀ a rest, d.inputs = a :: rest → (∀ s, a ≠ FnArg.SelfRef none s) →
       get_args d
         = .error { first := Rejection.create a.span .FirstArgumentNotSelfRef,
                    rest := [] }) := by
  obtain ⟨inputs, isp, out⟩ := d
  cases inputs with
  | nil =>
    refine ⟨fun _ => rfl, fun s rest hr => ?_, fun a rest ha => ?_⟩
    · cases hr
    · cases ha
  | cons a rest =>
    refine ⟨fun hn => ?_, fun s rest2 hr => ?_, fun a2 rest2 ha hne => ?_⟩
    · cases hn
    · injection hr with h1 h2
      subst h1
      subst h2
      rfl
    · injection ha with h1 h2
      subst h1
      subst h2
      cases a with
      | SelfRef mu sp =>
        cases mu with
        | none => exact absurd rfl (hne sp)
        | some m => rfl
      | SelfValue sp => rfl
      | Captured p t sp => rfl
      | Other sp => rfl

theorem receiver_must_be_shared_ref_witness :
    get_args { inputs := [], inputsSpan := 30, output := ReturnType.default 0 }
      = .error { first := Rejection.create 30 .FirstArgumentNotSelfRef, rest := [] } ∧
    get_args { inputs := [FnArg.SelfRef (some 32) 31], inputsSpan := 31,
               output := ReturnType.default 0 }
      = .error { first := Rejection.create 31 .FirstArgumentNotSelfRef, rest := [] } ∧
    get_args { inputs := [FnArg.SelfValue 33], inputsSpan := 33,
               output := ReturnType.default 0 }
      = .error { first := Rejection.create 33 .FirstArgumentNotSelfRef, rest := [] } ∧
    get_args { inputs := [FnArg.SelfRef none 34], inputsSpan := 34,
               output := ReturnType.default 0 }
      = .ok [] :=
  ⟨(receiver_must_be_shared_ref _).1 rfl,
   (receiver_must_be_shared_ref _).2.2 (FnArg.SelfRef (some 32) 31) [] rfl
     (by intro s h; simp at h),
   (receiver_must_be_shared_ref _).2.2 (FnArg.SelfValue 33) [] rfl
     (by intro s h; simp at h),
   ((receiver_must_be_shared_ref _).2.1 34 [] rfl).trans rfl⟩

/-! ## Claim C10: one binding-shape violation per parameter -/

/-- C10 — For a non-receiver parameter bound by an identifier pattern, the
binding checks are tried in a fixed order and report at most one violation:
a by-reference binding yields `ReferenceArg` (at the `ref` token) whatever
the mutability and subpattern; a mutable non-ref binding yields
`MutableArg` (at the `mut` token) whatever the subpattern; a plain binding
with a subpattern yields `PatternMatchedArg`; and a plain binding is
accepted with its name and type. -/
theorem binding_checks_report_one_violation (ty : Ty) (sp : Nat) (p : PatIdent) :
    (∀ r, p.by_ref = some r →
       as_jsonrpc_arg (.Captured (.Ident p) ty sp)
         = .error { first := Rejection.create r .ReferenceArg, rest := [] }) ∧
    (∀ m, p.by_ref = none → p.mutability = some m →
       as_jsonrpc_arg (.Captured (.Ident p) ty sp)
         = .error { first := Rejection.create m .MutableArg, rest := [] }) ∧
    (∀ l, p.by_ref = none → p.mutability = none → p.subpat = some l →
       as_jsonrpc_arg (.Captured (.Ident p) ty sp)
         = .error { first := Rejection.create l .PatternMatchedArg, rest := [] }) ∧
    (p.by_ref = none → p.mutability = none → p.subpat = none →
       as_jsonrpc_arg (.Captured (.Ident p) ty sp) = .ok (p.ident, ty)) := by
  refine ⟨fun r hr => ?_, fun m hb hm => ?_, fun l hb hm hs => ?_, fun hb hm hs => ?_⟩ <;>
    simp [as_jsonrpc_arg, Rejection.intoRejections, Rejection.create, *]

theorem binding_checks_report_one_violation_witness :
    as_jsonrpc_arg (.Captured (.Ident
        { ident := "x", identSpan := 40,
          by_ref := some 41, mutability := some 42, subpat := some 43 })
      (Ty.path "u8") 40)
      = .error { first := Rejection.create 41 .ReferenceArg, rest := [] } :=
  (binding_checks_report_one_violation _ _ _).1 41 rfl

/-! ## Lemmas about the generated argument-parsing loop -/

lemma length_filterMap_of_isSome {A B : Type} (f : A → Option B) (l : List A)
    (h : ∀ a ∈ l, (f a).isSome) : (l.filterMap f).length = l.length := by
  induction l with
  | nil => simp
  | cons a rest ih =>
    obtain ⟨b, hb⟩ := Option.isSome_iff_exists.mp (h a (List.mem_cons_self a rest))
    simp [List.filterMap_cons, hb, ih fun x hx => h x (List.mem_cons_of_mem a hx)]

lemma get_rpc_args_positional (values : List Json) (expected : List String) :
    get_rpc_args (.positional values) expected
      = if values.length = expected.length then .ok values
        else .error (.InvalidParams expected) := rfl

lemma get_rpc_args_named (fields : List (String × Json)) (expected : List String) :
    get_rpc_args (.named fields) expected
      = if ((expected.filter fun n => (fields.lookup n).isNone).isEmpty &&
            ((fields.map Prod.fst).filter fun n => !(expected.contains n)).isEmpty) then
          .ok (expected.filterMap fun n => fields.lookup n)
        else .error (.InvalidParams
          ((expected.filter fun n => (fields.lookup n).isNone) ++
           ((fields.map Prod.fst).filter fun n => !(expected.contains n)))) := rfl

/-- The parameter container delivers exactly one raw value per expected
name (the count check the generated code relies on). -/
lemma get_rpc_args_length (p : Params) (expected : List String)
    (args : List Json) (h : get_rpc_args p expected = .ok args) :
    args.length = expected.length := by
  cases p with
  | positional values =>
    rw [get_rpc_args_positional] at h
    split at h
    next hlen => injection h with h2; subst h2; exact hlen
    next => cases h
  | named fields =>
    rw [get_rpc_args_named] at h
    split at h
    next hcond =>
      injection h with h2
      subst h2
      apply length_filterMap_of_isSome
      intro nm hnm
      have hmiss : (expected.filter fun n => (fields.lookup n).isNone) = [] := by
        have := (Bool.and_eq_true _ _).mp hcond
        exact List.isEmpty_iff.mp this.1
      have := List.filter_eq_nil_iff.mp hmiss nm hnm
      cases hl : fields.lookup nm with
      | none => rw [hl] at this; simp at this
      | some v => simp
    next => cases h

lemma parse_args_loop_never_leftover_bug {V : Type}
    (ps : List (String × (Json → Except Unit V))) :
    ∀ idx args, parse_args_loop ps idx args ≠ .error Error.LeftoverArgsBug := by
  induction ps with
  | nil => intro idx args h; exact Except.noConfusion h
  | cons q rest ih =>
    intro idx args h
    obtain ⟨n, d⟩ := q
    cases args with
    | nil => simp [parse_args_loop] at h
    | cons v vs =>
      simp only [parse_args_loop, from_serde_json_value_ref] at h
      cases hd : d v with
      | ok x =>
        rw [hd] at h
        cases hr : parse_args_loop rest (idx + 1) vs with
        | ok pr => rw [hr] at h; simp at h
        | error e =>
          rw [hr] at h
          simp at h
          exact ih (idx + 1) vs (h ▸ hr)
      | error u => rw [hd] at h; simp at h

lemma parse_args_loop_no_too_few {V : Type}
    (ps : List (String × (Json → Except Unit V))) :
    ∀ idx args, ps.length ≤ args.length →
      parse_args_loop ps idx args ≠ .error Error.TooFewArgsBug := by
  induction ps with
  | nil => intro idx args _ h; exact Except.noConfusion h
  | cons q rest ih =>
    intro idx args hlen h
    obtain ⟨n, d⟩ := q
    cases args with
    | nil => simp at hlen
    | cons v vs =>
      simp only [parse_args_loop, from_serde_json_value_ref] at h
      cases hd : d v with
      | ok x =>
        rw [hd] at h
        cases hr : parse_args_loop rest (idx + 1) vs with
        | ok pr => rw [hr] at h; simp at h
        | error e =>
          rw [hr] at h
          simp at h
          have hlen2 : rest.length ≤ vs.length := by
            simp [List.length_cons] at hlen
            omega
          exact ih (idx + 1) vs hlen2 (h ▸ hr)
      | error u => rw [hd] at h; simp at h

lemma parse_args_loop_ok_consumes {V : Type}
    (ps : List (String × (Json → Except Unit V))) :
    ∀ idx args vals rem, parse_args_loop ps idx args = .ok (vals, rem) →
      vals.length = ps.length ∧ rem = args.drop ps.length := by
  induction ps with
  | nil =>
    intro idx args vals rem h
    simp [parse_args_loop] at h
    obtain ⟨h1, h2⟩ := h
    subst h1
    subst h2
    simp
  | cons q rest ih =>
    intro idx args vals rem h
    obtain ⟨n, d⟩ := q
    cases args with
    | nil => simp [parse_args_loop] at h
    | cons v vs =>
      simp only [parse_args_loop, from_serde_json_value_ref] at h
      cases hd : d v with
      | ok x =>
        rw [hd] at h
        cases hr : parse_args_loop rest (idx + 1) vs with
        | ok pr =>
          rw [hr] at h
          simp at h
          obtain ⟨h1, h2⟩ := h
          obtain ⟨hl, hdrop⟩ := ih (idx + 1) vs pr.1 pr.2 (by rw [hr])
          constructor
          · rw [← h1]
            simp [hl]
          · rw [← h2, hdrop]
            simp [List.drop]
        | error e => rw [hr] at h; exact Except.noConfusion h
      | error u => rw [hd] at h; exact Except.noConfusion h

/-! ## Claim C9: one raw value consumed per parameter, defensively asserted -/

/-- C9 — Whenever the parameter container delivers the extracted raw values,
the generated dispatch body consumes exactly one of them per declared
parameter, in declaration order: the too-few-values panic is unreachable, a
successful parse consumes all values with none left unconsumed, and the
generated `debug_assert` on leftover values never fires. -/
theorem dispatch_consumes_one_value_per_parameter {V R : Type}
    (m : MethodImpl V R) (p : Params) (args : List Json)
    (hargs : get_rpc_args p (m.params.map Prod.fst) = .ok args) :
    parse_args_loop m.params 0 args ≠ .error Error.TooFewArgsBug ∧
    (∀ vals rem, parse_args_loop m.params 0 args = .ok (vals, rem) →
       vals.length = m.params.length ∧ rem = []) ∧
    handle_method m p ≠ .error Error.LeftoverArgsBug := by
  have hlen : args.length = m.params.length := by
    have := get_rpc_args_length p _ args hargs
    simpa using this
  refine ⟨parse_args_loop_no_too_few m.params 0 args (le_of_eq hlen.symm),
    fun vals rem h => ?_, ?_⟩
  · obtain ⟨hv, hr⟩ := parse_args_loop_ok_consumes m.params 0 args vals rem h
    refine ⟨hv, ?_⟩
    rw [hr, ← hlen, List.drop_length]
  · intro hbug
    have hextract : extract_and_parse m.params p = parse_args_loop m.params 0 args := by
      unfold extract_and_parse
      rw [hargs]
    unfold handle_method at hbug
    rw [hextract] at hbug
    cases hp : parse_args_loop m.params 0 args with
    | error e =>
      rw [hp] at hbug
      simp at hbug
      exact parse_args_loop_never_leftover_bug m.params 0 args (hbug ▸ hp)
    | ok pr =>
      obtain ⟨vals, rem⟩ := pr
      rw [hp] at hbug
      obtain ⟨hv, hr⟩ := parse_args_loop_ok_consumes m.params 0 args vals rem hp
      rw [← hlen, List.drop_length] at hr
      subst hr
      simp only [List.isEmpty_nil, if_true] at hbug
      unfold try_serialize at hbug
      cases hser : m.ser (m.callImpl vals) with
      | ok j => rw [hser] at hbug; exact Except.noConfusion hbug
      | error u =>
        rw [hser] at hbug
        injection hbug with hb
        exact Error.noConfusion hb

/-- Deserializer for a string-typed parameter. -/
def decode_string : Json → Except Unit String
  | .str s => .ok s
  | _ => .error ()

/-- Runtime view of the generated handler arm for
`fn echo(&self, msg: String) -> String`. -/
def echo_impl : MethodImpl String String :=
  { name := "echo",
    params := [("msg", decode_string)],
    callImpl := fun vs => match vs with | [s] => s | _ => "",
    ser := fun s => .ok (.str s) }

theorem dispatch_consumes_one_value_per_parameter_witness :
    get_rpc_args (Params.named [("msg", Json.str "hi")])
        (echo_impl.params.map Prod.fst) = .ok [Json.str "hi"] ∧
    (parse_args_loop echo_impl.params 0 [Json.str "hi"]
        ≠ .error Error.TooFewArgsBug ∧
     (∀ vals rem, parse_args_loop echo_impl.params 0 [Json.str "hi"] = .ok (vals, rem) →
        vals.length = echo_impl.params.length ∧ rem = []) ∧
     handle_method echo_impl (Params.named [("msg", Json.str "hi")])
        ≠ .error Error.LeftoverArgsBug) :=
  ⟨rfl, dispatch_consumes_one_value_per_parameter echo_impl
    (Params.named [("msg", Json.str "hi")]) [Json.str "hi"] rfl⟩

/-! ## Claim C6: ordered deserialization and `InvalidArgStructure` -/

lemma parse_args_loop_fail {V : Type}
    {pre : List (String × (Json → Except Unit V))} {argsPre : List Json}
    (hpre : List.Forall₂ (fun q w => ∃ x, q.2 w = Except.ok x) pre argsPre) :
    ∀ (idx : Nat) (n : String) (d : Json → Except Unit V)
      (post : List (String × (Json → Except Unit V)))
      (v : Json) (argsPost : List Json), d v = .error () →
      parse_args_loop (pre ++ (n, d) :: post) idx (argsPre ++ v :: argsPost)
        = .error (.InvalidArgStructure n (idx + pre.length)) := by
  induction hpre with
  | nil =>
    intro idx n d post v argsPost hfail
    simp [parse_args_loop, from_serde_json_value_ref, hfail]
  | @cons q w pre2 argsPre2 hq hrest ih =>
    intro idx n d post v argsPost hfail
    obtain ⟨qn, qd⟩ := q
    obtain ⟨x, hx⟩ := hq
    have hx2 : qd w = Except.ok x := hx
    show parse_args_loop ((qn, qd) :: (pre2 ++ (n, d) :: post)) idx
        ((w :: argsPre2) ++ v :: argsPost)
      = .error (.InvalidArgStructure n (idx + ((qn, qd) :: pre2).length))
    simp only [List.cons_append, parse_args_loop, from_serde_json_value_ref, hx2,
      ih (idx + 1) n d post v argsPost hfail]
    have hidx : idx + 1 + pre2.length = idx + ((qn, qd) :: pre2).length := by
      simp [List.length_cons]
      omega
    simp [hidx]

/-- C6 — For an accepted method reached by the dispatcher, the extracted raw
values are deserialized into the declared parameter types strictly in
declaration order; when every parameter before position `i` deserializes and
the parameter named `n` at position `i` fails, dispatch returns
`InvalidArgStructure{name: n, index: i}` (here `i = pre.length`). -/
theorem dispatch_reports_first_invalid_arg {V R : Type}
    (methods : List (MethodImpl V R)) (mname : String) (m : MethodImpl V R)
    (p : Params) (pre post : List (String × (Json → Except Unit V)))
    (n : String) (d : Json → Except Unit V)
    (argsPre argsPost : List Json) (v : Json)
    (hfind : methods.find? (fun mm => mm.name == mname) = some m)
    (hparams : m.params = pre ++ (n, d) :: post)
    (hargs : get_rpc_args p (m.params.map Prod.fst) = .ok (argsPre ++ v :: argsPost))
    (hpre : List.Forall₂ (fun q w => ∃ x, q.2 w = Except.ok x) pre argsPre)
    (hfail : d v = .error ()) :
    handle methods mname p = .error (.InvalidArgStructure n pre.length) := by
  have hextract : extract_and_parse m.params p
      = .error (.InvalidArgStructure n pre.length) := by
    have hloop : extract_and_parse m.params p
        = parse_args_loop m.params 0 (argsPre ++ v :: argsPost) := by
      unfold extract_and_parse
      rw [hargs]
    rw [hloop, hparams]
    have hz := parse_args_loop_fail hpre 0 n d post v argsPost hfail
    simpa using hz
  unfold handle
  rw [hfind]
  show handle_method m p = .error (.InvalidArgStructure n pre.length)
  unfold handle_method
  rw [hextract]

theorem dispatch_reports_first_invalid_arg_witness :
    get_rpc_args (Params.named [("msg", Json.num 42)])
        (echo_impl.params.map Prod.fst) = .ok [Json.num 42] ∧
    handle [echo_impl] "echo" (Params.named [("msg", Json.num 42)])
      = .error (.InvalidArgStructure "msg" 0) :=
  ⟨rfl,
   dispatch_reports_first_invalid_arg [echo_impl] "echo" echo_impl
     (Params.named [("msg", Json.num 42)]) [] [] "msg" decode_string
     [] [] (Json.num 42) rfl rfl rfl List.Forall₂.nil rfl⟩

/-! ## Claim C7: client call construction is all-or-nothing and ordered -/

lemma serialize_args_ok_of_forall2 {V : Type}
    {pairs : List ((V → Except Unit Json) × V)} {js : List Json}
    (h : List.Forall₂ (fun a j => a.1 a.2 = Except.ok j) pairs js) :
    serialize_args pairs = .ok js := by
  induction h with
  | nil => rfl
  | cons ha hrest ih => simp [serialize_args, ha, ih]

lemma serialize_args_error_of_mem {V : Type}
    {pairs : List ((V → Except Unit Json) × V)}
    (h : ∃ a ∈ pairs, a.1 a.2 = Except.error ()) :
    serialize_args pairs = .error {} := by
  induction pairs with
  | nil => simp at h
  | cons a rest ih =>
    obtain ⟨b, hb, hberr⟩ := h
    rcases List.mem_cons.mp hb with rfl | hbr
    · simp [serialize_args, hberr]
    · cases ha : a.1 a.2 with
      | error u => simp [serialize_args, ha]
      | ok j => simp [serialize_args, ha, ih ⟨b, hbr, hberr⟩]

/-- C7 — A generated client request builder serializes each argument
independently, in declaration order: if every argument serializes, the
descriptor embeds the method-name literal verbatim together with the
serialized arguments in declaration order; if any argument fails to
serialize, the whole construction returns `ArgSerializeError` and no
partial descriptor is returned. -/
theorem client_call_all_or_nothing {V R : Type} (name : String)
    (pairs : List ((V → Except Unit Json) × V)) :
    (∀ js, List.Forall₂ (fun a j => a.1 a.2 = Except.ok j) pairs js →
       impl_client_method_call (R := R) name pairs = .ok (BoundMethod.new name js)) ∧
    ((∃ a ∈ pairs, a.1 a.2 = Except.error ()) →
       impl_client_method_call (R := R) name pairs = .error {}) := by
  constructor
  · intro js h
    unfold impl_client_method_call
    rw [serialize_args_ok_of_forall2 h]
  · intro h
    unfold impl_client_method_call
    rw [serialize_args_error_of_mem h]

theorem client_call_all_or_nothing_witness :
    impl_client_method_call (R := Int) "scale"
        [(fun n => Except.ok (Json.num n), (3 : Int))]
      = .ok (BoundMethod.new "scale" [Json.num 3]) ∧
    impl_client_method_call (R := Int) "scale"
        [(fun _ => Except.error (), (3 : Int))]
      = .error {} :=
  ⟨(client_call_all_or_nothing "scale" _).1 [Json.num 3]
      (List.Forall₂.cons rfl List.Forall₂.nil),
   (client_call_all_or_nothing "scale" _).2
      ⟨(fun _ => Except.error (), (3 : Int)), List.Mem.head _, rfl⟩⟩

/-! ## Claim C1: client-to-dispatcher round trip -/

/-- One parameter of a round-trip scenario: its declared name, the
deserializer and serializer induced by its declared type, and the argument
value supplied to the client builder. -/
structure RoundTripArg (V : Type) where
  name : String
  dec : Json → Except Unit V
  enc : V → Except Unit Json
  val : V

/-- C1 — For an accepted method, building the client call descriptor from
argument values that serialize successfully and feeding the descriptor's
serialized arguments through the dispatcher's extraction-and-deserialization
step, under the method's expected parameter-name list, yields back exactly
the original values.  The hypothesis is the external serialization layer's
round-trip contract at each argument: serializing the value succeeds and
deserializing the result at the declared type returns the value. -/
theorem client_dispatch_round_trip {V R : Type} (name : String)
    (l : List (RoundTripArg V)) (js : List Json)
    (h : List.Forall₂ (fun a j =>
      a.enc a.val = Except.ok j ∧ a.dec j = Except.ok a.val) l js) :
    impl_client_method_call (R := R) name (l.map fun a => (a.enc, a.val))
      = .ok (BoundMethod.new name js) ∧
    extract_and_parse (l.map fun a => (a.name, a.dec)) (Params.positional js)
      = .ok (l.map RoundTripArg.val, []) := by
  constructor
  · have henc : List.Forall₂
        (fun (p : (V → Except Unit Json) × V) (j : Json) => p.1 p.2 = Except.ok j)
        (l.map fun a => (a.enc, a.val)) js := by
      rw [List.forall₂_map_left_iff]
      exact h.imp fun a b hab => hab.1
    unfold impl_client_method_call
    rw [serialize_args_ok_of_forall2 henc]
  · have hlen : js.length = l.length := h.length_eq.symm
    have hget : get_rpc_args (Params.positional js)
        ((l.map fun a => (a.name, a.dec)).map Prod.fst) = .ok js := by
      rw [get_rpc_args_positional]
      simp [hlen]
    unfold extract_and_parse
    rw [hget]
    have hparse : ∀ (l2 : List (RoundTripArg V)) (js2 : List Json),
        List.Forall₂ (fun a j => a.dec j = Except.ok a.val) l2 js2 →
        ∀ (idx : Nat) (extra : List Json),
          parse_args_loop (l2.map fun a => (a.name, a.dec)) idx (js2 ++ extra)
            = .ok (l2.map RoundTripArg.val, extra) := by
      intro l2 js2 h2
      induction h2 with
      | nil => intro idx extra; simp [parse_args_loop]
      | cons hd hrest ih =>
        intro idx extra
        simp [parse_args_loop, from_serde_json_value_ref, hd, ih (idx + 1) extra]
    have := hparse l js (h.imp fun a b hab => hab.2) 0 []
    rw [List.append_nil] at this
    exact this

theorem client_dispatch_round_trip_witness :
    impl_client_method_call (R := Int) "scale_by"
        [(fun n => Except.ok (Json.num n), (7 : Int))]
      = .ok (BoundMethod.new "scale_by" [Json.num 7]) ∧
    extract_and_parse [("factor", decode_int)] (Params.positional [Json.num 7])
      = .ok ([(7 : Int)], []) :=
  client_dispatch_round_trip "scale_by"
    [{ name := "factor", dec := decode_int,
       enc := fun n => Except.ok (Json.num n), val := (7 : Int) }]
    [Json.num 7]
    (List.Forall₂.cons ⟨rfl, rfl⟩ List.Forall₂.nil)

end EasyJsonrpc
